import Mathlib

/-!
Shallow embedding of the block-validator monitor (src/main.js).

The JavaScript program is a single class `BlockValidator` whose mutable
fields (`validatorCache`, `epochStats`, `data`, `ws`) are modelled here as
an explicit `SystemState` record, and whose methods become pure state
transformers.  External effects are passed in as explicit parameters:
the validator-directory lookup result (`fetch : Option (List Str)`, with
`none` modelling a thrown lookup error caught by `updateValidatorList`)
and the snapshot-store write outcome (`writeOk : Bool`, with `false`
modelling a thrown write error caught by `saveData`).  Strings are
`List Char`; the JS `toLowerCase` becomes a character map; the JS
`String.indexOf` becomes `firstIdxOf`; the JS stable `Array.sort` with
comparator `a.position - b.position` becomes `List.mergeSort` with the
corresponding `≤` test.  The persisted file `validator_data.json` is the
`file` field; the in-memory `this.data.blocks` object (keyed by the
string `startBlock-endBlock`, injective in the two numbers) is an
association list keyed by the pair of numbers.
-/

namespace BlockValidator

/-- Character strings as lists of characters. -/
abbrev Str := List Char

/-- JS `s.toLowerCase()` on a string. -/
def toLowerStr (s : Str) : Str := s.map Char.toLower

/-- The statically configured cohort (`config.club48Validators` in main.js). -/
def club48Validators : List Str :=
  [ "0xccb42a9b8d6c46468900527bc741938e78ab4577".data
  , "0x38944092685a336cb6b9ea58836436709a2adc89".data
  , "0xf8b99643fafc79d9404de68e48c4d49a3936f787".data
  , "0x9bb56c2b4dbe5a06d79911c9899b6f817696acfc".data
  , "0x8a239732871adc8829ea2f47e94087c5fbad47b6".data ]

/-- JS membership test `config.club48Validators.map(a => a.toLowerCase()).includes(miner)`
(main.js lines 88 and 154), for an already-lowercased miner. -/
def isClub48Member (miner : Str) : Bool :=
  (club48Validators.map toLowerStr).contains miner

/-- JS `hay.indexOf(needle)` (first index of `needle` as a contiguous
substring of `hay`, `none` for the JS result -1). -/
def firstIdxOf (needle : Str) : Str → Option Nat
  | [] => if needle.isPrefixOf [] then some 0 else none
  | c :: t =>
    if needle.isPrefixOf (c :: t) then some 0
    else (firstIdxOf needle t).map (fun i => i + 1)

/-- One entry of the decoded ordering: main.js pushes
`{address: validator, position: position}` (lines 113-117). -/
structure FoundValidator where
  address : Str
  position : Nat
deriving Repr, DecidableEq

/-- The boundary-time decode loop of main.js lines 107-120: lowercase each
validator, strip the two-character prefix, find the first occurrence inside
the lowercased extraData, keep the found ones, sort ascending by position
(JS stable sort with comparator `a.position - b.position`). -/
def decodeExtraData (extraData : Str) (validators : List Str) : List FoundValidator :=
  let lowered := validators.map toLowerStr
  let found := lowered.filterMap (fun v =>
    match firstIdxOf (v.drop 2) (toLowerStr extraData) with
    | some p => some ⟨v, p⟩
    | none => none)
  found.mergeSort (fun a b => decide (a.position ≤ b.position))

/-- The `epochStats` record of main.js (lines 43-47). -/
structure EpochStats where
  startBlock : Nat
  club48Blocks : Nat
  totalBlocks : Nat
deriving Repr, DecidableEq

/-- The record pushed to `data.epochs` at a boundary (main.js lines 127-135).
The `validationRate` string of the JS record is a two-decimal rendering of
`club48Blocks / totalBlocks * 100` and carries no further information, so
only the two counters it is computed from are kept. -/
structure EpochRecord where
  epochStart : Int
  epochEnd : Int
  club48Blocks : Nat
  totalBlocks : Nat
  validatorsInExtraData : Nat
  validatorOrder : List FoundValidator
  extraData : Str
deriving Repr, DecidableEq

/-- The record pushed to `data.blocks[currentEpoch]` for a matched
non-boundary block (main.js lines 159-164). -/
structure BlockRecord where
  blockNumber : Nat
  miner : Str
  extraDataPosition : Nat
  isClub48 : Bool
deriving Repr, DecidableEq

/-- An epoch-range key `startBlock-endBlock` (the JS string template is
injective in the two numbers, so the pair itself is kept). -/
abbrev EpochKey := Nat × Nat

/-- The in-memory `this.data` object of main.js (lines 49-52): the
`epochs` array and the `blocks` object keyed by epoch range. -/
structure Data where
  epochs : List EpochRecord
  blocks : List (EpochKey × List BlockRecord)
deriving Repr, DecidableEq

/-- JS property read `d.blocks[k]` on the association list. -/
def lookupKey (k : EpochKey) : List (EpochKey × List BlockRecord) → Option (List BlockRecord)
  | [] => none
  | e :: t => if e.1 = k then some e.2 else lookupKey k t

/-- main.js lines 94-96: `if (!this.data.blocks[currentEpoch]) this.data.blocks[currentEpoch] = []`. -/
def ensureBlocksKey (d : Data) (k : EpochKey) : Data :=
  match lookupKey k d.blocks with
  | some _ => d
  | none => { d with blocks := d.blocks ++ [(k, [])] }

/-- main.js line 159: `this.data.blocks[currentEpoch].push(record)`. -/
def appendBlockRecord (d : Data) (k : EpochKey) (r : BlockRecord) : Data :=
  { d with blocks := d.blocks.map (fun e => if e.1 = k then (e.1, e.2 ++ [r]) else e) }

/-- The `validatorCache` record of main.js (lines 38-42). -/
structure ValidatorCache where
  validators : List Str
  validatorFromExtraDatas : List FoundValidator
  lastUpdateBlock : Nat
deriving Repr, DecidableEq

/-- The whole mutable state of the `BlockValidator` instance plus the
snapshot-store file it writes.  `ws` is the transport handle, modelled as
an abstract connection generation number. -/
structure SystemState where
  ws : Nat
  validatorCache : ValidatorCache
  epochStats : EpochStats
  data : Data
  file : Option Data
deriving Repr, DecidableEq

/-- The state built by the constructor (main.js lines 37-53) when no
existing `validator_data.json` is present. -/
def initialState : SystemState :=
  { ws := 0
  , validatorCache := { validators := [], validatorFromExtraDatas := [], lastUpdateBlock := 0 }
  , epochStats := { startBlock := 0, club48Blocks := 0, totalBlocks := 0 }
  , data := { epochs := [], blocks := [] }
  , file := none }

/-- main.js `saveData` (lines 67-76): on success the file becomes the
current in-memory data; a write error is caught and logged, leaving the
file as it was.  No in-memory field is touched in either case. -/
def saveData (writeOk : Bool) (s : SystemState) : SystemState :=
  if writeOk then { s with file := some s.data } else s

/-- main.js `updateValidatorList` (lines 220-227): on success the held
validator list is replaced wholesale; a lookup error is caught and logged,
leaving the previous list untouched. -/
def updateValidatorList (fetch : Option (List Str)) (s : SystemState) : SystemState :=
  match fetch with
  | some vs => { s with validatorCache := { s.validatorCache with validators := vs } }
  | none => s

/-- main.js `connectWebSocket` (lines 185-218): establishes a fresh
transport and registers its handlers; the only instance field it assigns
is `this.ws`. -/
def connectWebSocket (s : SystemState) (newConn : Nat) : SystemState :=
  { s with ws := newConn }

/-- The input event: block number (already parsed from its hex wire form),
miner identity string, and the extraData marker blob. -/
structure BlockHeader where
  number : Nat
  miner : Str
  extraData : Str
deriving Repr, DecidableEq

/-- main.js lines 83-85: `if (this.epochStats.startBlock === 0)
this.epochStats.startBlock = blockNumber - (blockNumber % 200)`. -/
def initStartBlock (s : SystemState) (n : Nat) : Nat :=
  if s.epochStats.startBlock = 0 then n - n % 200 else s.epochStats.startBlock

/-- The epoch stats after the init check and the two counter increments
(main.js lines 83-90), for block number `n` and lowercased miner `m`. -/
def statsAfterCount (s : SystemState) (n : Nat) (m : Str) : EpochStats :=
  { startBlock := initStartBlock s n
  , club48Blocks :=
      if isClub48Member m then s.epochStats.club48Blocks + 1 else s.epochStats.club48Blocks
  , totalBlocks := s.epochStats.totalBlocks + 1 }

/-- main.js `handleNewBlock` (lines 78-172), as a pure state transformer.
`fetch` is the outcome of the directory lookup performed when the boundary
branch calls `updateValidatorList`; `writeOk` is the outcome of any
`saveData` call made during this event. -/
def handleNewBlock (fetch : Option (List Str)) (writeOk : Bool)
    (hdr : BlockHeader) (s : SystemState) : SystemState :=
  let blockNumber := hdr.number
  let miner := toLowerStr hdr.miner
  let stats1 := statsAfterCount s blockNumber miner
  let currentEpoch : EpochKey := (stats1.startBlock, stats1.startBlock + 200)
  let data0 := ensureBlocksKey s.data currentEpoch
  if blockNumber % 200 = 0 then
    -- percentage := club48Blocks / totalBlocks * 100, two-decimal string (reporting only)
    let s1 := updateValidatorList fetch { s with epochStats := stats1, data := data0 }
    let foundValidators := decodeExtraData hdr.extraData s1.validatorCache.validators
    let cache1 := { s1.validatorCache with
      validatorFromExtraDatas := foundValidators
      lastUpdateBlock := blockNumber }
    let epochRec : EpochRecord :=
      { epochStart := (blockNumber : Int) - 200
      , epochEnd := (blockNumber : Int)
      , club48Blocks := stats1.club48Blocks
      , totalBlocks := stats1.totalBlocks
      , validatorsInExtraData := foundValidators.length
      , validatorOrder := foundValidators
      , extraData := hdr.extraData }
    let data1 := { data0 with epochs := data0.epochs ++ [epochRec] }
    let s2 := saveData writeOk { s1 with validatorCache := cache1, data := data1 }
    { s2 with epochStats := { startBlock := blockNumber, club48Blocks := 0, totalBlocks := 0 } }
  else
    match s.validatorCache.validatorFromExtraDatas.findIdx?
        (fun v => decide (toLowerStr v.address = miner)) with
    | some idx =>
      let blockRec : BlockRecord :=
        { blockNumber := blockNumber
        , miner := miner
        , extraDataPosition := idx
        , isClub48 := isClub48Member miner }
      let data1 := appendBlockRecord data0 currentEpoch blockRec
      let s2 := { s with epochStats := stats1, data := data1 }
      if blockNumber % 10 = 0 then saveData writeOk s2 else s2
    | none => { s with epochStats := stats1, data := data0 }

/-- One event together with the outcomes of the external calls it makes. -/
structure Event where
  fetch : Option (List Str)
  writeOk : Bool
  hdr : BlockHeader
deriving Repr, DecidableEq

/-- Sequential processing of a finite stream of block-header events. -/
def processEvents (evs : List Event) (s : SystemState) : SystemState :=
  evs.foldl (fun st e => handleNewBlock e.fetch e.writeOk e.hdr st) s

/-- The validator list visible to the boundary decode: the fetched list on
success, the previously held list on lookup failure. -/
def fetchedValidators (fetch : Option (List Str)) (s : SystemState) : List Str :=
  match fetch with
  | some vs => vs
  | none => s.validatorCache.validators

/-- The epoch record the boundary branch of `handleNewBlock` appends to
`data.epochs` (main.js lines 127-135). -/
def epochRecordAt (fetch : Option (List Str)) (hdr : BlockHeader) (s : SystemState) :
    EpochRecord :=
  let L := decodeExtraData hdr.extraData (fetchedValidators fetch s)
  { epochStart := (hdr.number : Int) - 200
  , epochEnd := (hdr.number : Int)
  , club48Blocks := (statsAfterCount s hdr.number (toLowerStr hdr.miner)).club48Blocks
  , totalBlocks := (statsAfterCount s hdr.number (toLowerStr hdr.miner)).totalBlocks
  , validatorsInExtraData := L.length
  , validatorOrder := L
  , extraData := hdr.extraData }

/-- All block records accumulated in the persisted map, across all epoch keys. -/
def allBlockRecords (d : Data) : List BlockRecord :=
  (d.blocks.map Prod.snd).flatten

/-- The epoch-range key under which the processed block is grouped
(main.js line 93), after the startBlock initialization. -/
def currentKey (s : SystemState) (n : Nat) : EpochKey :=
  (initStartBlock s n, initStartBlock s n + 200)

/-- The block record pushed for a matched non-boundary block. -/
def matchedRecord (hdr : BlockHeader) (idx : Nat) : BlockRecord :=
  { blockNumber := hdr.number
  , miner := toLowerStr hdr.miner
  , extraDataPosition := idx
  , isClub48 := isClub48Member (toLowerStr hdr.miner) }

/-- The in-memory data after a boundary step. -/
def boundaryData (fetch : Option (List Str)) (hdr : BlockHeader) (s : SystemState) : Data :=
  { epochs := (ensureBlocksKey s.data (currentKey s hdr.number)).epochs ++ [epochRecordAt fetch hdr s]
  , blocks := (ensureBlocksKey s.data (currentKey s hdr.number)).blocks }

/-- The event numbers count up by one from the given number (the block-header
feed delivering one event per produced block, in order). -/
def consecFrom : Nat → List Event → Prop
  | _, [] => True
  | n, e :: t => e.hdr.number = n ∧ consecFrom (n + 1) t

/-! ### Characterization of the substring search -/

/-- The function firstIdxOf finds exactly the first index at which the needle is a
prefix of the remaining haystack (the JS `indexOf` contract). -/
theorem firstIdxOf_eq_some_iff (nd hy : Str) (p : Nat) :
    firstIdxOf nd hy = some p ↔
      (nd <+: hy.drop p ∧ ∀ q, q < p → ¬ nd <+: hy.drop q) := by
  induction hy generalizing p with
  | nil =>
    simp only [firstIdxOf, List.isPrefixOf_iff_prefix, List.drop_nil, List.prefix_nil]
    by_cases hnd : nd = []
    · subst hnd
      simp only [if_pos rfl]
      constructor
      · intro h
        injection h with h
        subst h
        exact ⟨trivial, fun q hq => absurd hq (Nat.not_lt_zero q)⟩
      · rintro ⟨-, hmin⟩
        rcases Nat.eq_zero_or_pos p with rfl | hp
        · rfl
        · exact absurd trivial (hmin 0 hp)
    · simp [hnd]
  | cons c t ih =>
    simp only [firstIdxOf, List.isPrefixOf_iff_prefix]
    by_cases h : nd <+: c :: t
    · simp only [if_pos h]
      constructor
      · intro he
        injection he with he
        subst he
        exact ⟨h, fun q hq => absurd hq (Nat.not_lt_zero q)⟩
      · rintro ⟨hpre, hmin⟩
        rcases Nat.eq_zero_or_pos p with rfl | hp
        · rfl
        · exact absurd h (by simpa using hmin 0 hp)
    · simp only [if_neg h, Option.map_eq_some']
      constructor
      · rintro ⟨p0, hp0, rfl⟩
        rcases (ih p0).mp hp0 with ⟨hpre, hmin⟩
        refine ⟨by simpa using hpre, ?_⟩
        intro q hq
        match q with
        | 0 => simpa using h
        | q + 1 =>
          have : q < p0 := by omega
          simpa using hmin q this
      · rintro ⟨hpre, hmin⟩
        match p with
        | 0 => exact absurd (by simpa using hpre) h
        | p + 1 =>
          refine ⟨p, (ih p).mpr ⟨by simpa using hpre, ?_⟩, rfl⟩
          intro q hq
          have := hmin (q + 1) (by omega)
          simpa using this

/-! ### Lemmas about the blocks association list -/

theorem lookupKey_eq_none_iff (k : EpochKey) (l : List (EpochKey × List BlockRecord)) :
    lookupKey k l = none ↔ k ∉ l.map Prod.fst := by
  induction l with
  | nil => simp [lookupKey]
  | cons e t ih =>
    by_cases h : e.1 = k
    · simp [lookupKey, h]
    · simp only [lookupKey, if_neg h, List.map_cons, List.mem_cons, ih]
      constructor
      · intro hk
        exact fun hc => hc.elim (fun he => h he.symm) hk
      · intro hk hm
        exact hk (Or.inr hm)

theorem lookupKey_append_self (k : EpochKey) (l : List (EpochKey × List BlockRecord))
    (v : List BlockRecord) (h : lookupKey k l = none) :
    lookupKey k (l ++ [(k, v)]) = some v := by
  induction l with
  | nil => simp [lookupKey]
  | cons e t ih =>
    by_cases he : e.1 = k
    · simp [lookupKey, he] at h
    · simp only [lookupKey, if_neg he] at h
      simpa [lookupKey, he] using ih h

theorem lookupKey_append_ne (k2 k : EpochKey) (l : List (EpochKey × List BlockRecord))
    (v : List BlockRecord) (hne : k2 ≠ k) :
    lookupKey k2 (l ++ [(k, v)]) = lookupKey k2 l := by
  have h2 : ¬ k = k2 := fun hc => hne hc.symm
  induction l with
  | nil => simp [lookupKey, h2]
  | cons e t ih =>
    by_cases he : e.1 = k2 <;> simp [lookupKey, he, ih]

theorem lookupKey_ensure_self (d : Data) (k : EpochKey) :
    lookupKey k (ensureBlocksKey d k).blocks = some ((lookupKey k d.blocks).getD []) := by
  unfold ensureBlocksKey
  cases h : lookupKey k d.blocks with
  | some v => simp [h]
  | none => simp [h, lookupKey_append_self k d.blocks [] h]

theorem lookupKey_ensure_ne (d : Data) (k k2 : EpochKey) (hne : k2 ≠ k) :
    lookupKey k2 (ensureBlocksKey d k).blocks = lookupKey k2 d.blocks := by
  unfold ensureBlocksKey
  cases h : lookupKey k d.blocks with
  | some v => rfl
  | none => simp [h, lookupKey_append_ne k2 k d.blocks [] hne]

theorem lookupKey_appendRec_self (d : Data) (k : EpochKey) (r : BlockRecord) :
    lookupKey k (appendBlockRecord d k r).blocks
      = (lookupKey k d.blocks).map (fun l => l ++ [r]) := by
  show lookupKey k (d.blocks.map _) = _
  induction d.blocks with
  | nil => rfl
  | cons e t ih =>
    by_cases he : e.1 = k <;> simp [lookupKey, he, ih]

theorem lookupKey_appendRec_ne (d : Data) (k k2 : EpochKey) (r : BlockRecord)
    (hne : k2 ≠ k) :
    lookupKey k2 (appendBlockRecord d k r).blocks = lookupKey k2 d.blocks := by
  have h2 : ¬ k = k2 := fun hc => hne hc.symm
  show lookupKey k2 (d.blocks.map _) = _
  induction d.blocks with
  | nil => rfl
  | cons e t ih =>
    by_cases he : e.1 = k
    · simp [lookupKey, he, h2, ih]
    · by_cases he2 : e.1 = k2 <;> simp [lookupKey, he, he2, ih, hne]

theorem epochs_ensure (d : Data) (k : EpochKey) :
    (ensureBlocksKey d k).epochs = d.epochs := by
  unfold ensureBlocksKey
  cases lookupKey k d.blocks <;> rfl

theorem epochs_appendRec (d : Data) (k : EpochKey) (r : BlockRecord) :
    (appendBlockRecord d k r).epochs = d.epochs := rfl

theorem nodupKeys_ensure (d : Data) (k : EpochKey)
    (h : (d.blocks.map Prod.fst).Nodup) :
    ((ensureBlocksKey d k).blocks.map Prod.fst).Nodup := by
  unfold ensureBlocksKey
  cases hl : lookupKey k d.blocks with
  | some v => exact h
  | none =>
    have hk : k ∉ d.blocks.map Prod.fst := (lookupKey_eq_none_iff _ _).mp hl
    simp only [List.map_append, List.map_cons, List.map_nil]
    simp [List.nodup_append, h, hk]

theorem allBlockRecords_ensure (d : Data) (k : EpochKey) :
    allBlockRecords (ensureBlocksKey d k) = allBlockRecords d := by
  unfold ensureBlocksKey
  cases hl : lookupKey k d.blocks with
  | some v => rfl
  | none => simp [allBlockRecords]

theorem map_update_eq_self (k : EpochKey) (r : BlockRecord)
    (l : List (EpochKey × List BlockRecord)) (h : k ∉ l.map Prod.fst) :
    l.map (fun e => if e.1 = k then (e.1, e.2 ++ [r]) else e) = l := by
  induction l with
  | nil => rfl
  | cons e t ih =>
    simp only [List.map_cons, List.mem_cons] at h ⊢
    have he : e.1 ≠ k := fun hc => h (Or.inl hc.symm)
    rw [if_neg he, ih (fun hm => h (Or.inr hm))]

theorem length_flatten_update (k : EpochKey) (r : BlockRecord) :
    ∀ l : List (EpochKey × List BlockRecord),
      (l.map Prod.fst).Nodup → (lookupKey k l).isSome →
      ((l.map (fun e => if e.1 = k then (e.1, e.2 ++ [r]) else e)).map Prod.snd).flatten.length
        = ((l.map Prod.snd).flatten).length + 1 := by
  intro l
  induction l with
  | nil =>
    intro _ hk
    simp [lookupKey] at hk
  | cons e t ih =>
    intro hnd hk
    simp only [List.map_cons, List.nodup_cons] at hnd
    by_cases he : e.1 = k
    · have hkt : k ∉ t.map Prod.fst := he ▸ hnd.1
      simp only [List.map_cons, if_pos he, map_update_eq_self k r t hkt,
        List.flatten_cons, List.length_append]
      simp
      omega
    · simp only [lookupKey, if_neg he] at hk
      have hrec := ih hnd.2 hk
      simp only [List.map_cons, if_neg he, List.flatten_cons, List.length_append] at hrec ⊢
      omega

theorem length_allBlockRecords_appendRec (d : Data) (k : EpochKey) (r : BlockRecord)
    (hnd : (d.blocks.map Prod.fst).Nodup) (hk : (lookupKey k d.blocks).isSome) :
    (allBlockRecords (appendBlockRecord d k r)).length
      = (allBlockRecords d).length + 1 :=
  length_flatten_update k r d.blocks hnd hk

/-- The function firstIdxOf fails exactly when the needle occurs nowhere. -/
theorem firstIdxOf_eq_none_iff (nd hy : Str) :
    firstIdxOf nd hy = none ↔ ∀ q, ¬ nd <+: hy.drop q := by
  induction hy with
  | nil =>
    simp only [firstIdxOf, List.isPrefixOf_iff_prefix, List.drop_nil, List.prefix_nil]
    by_cases hnd : nd = [] <;> simp [hnd]
  | cons c t ih =>
    simp only [firstIdxOf, List.isPrefixOf_iff_prefix]
    by_cases h : nd <+: c :: t
    · simp only [if_pos h]
      constructor
      · intro he; cases he
      · intro hall; exact absurd h (by simpa using hall 0)
    · simp only [if_neg h, Option.map_eq_none', ih]
      constructor
      · intro hall q
        match q with
        | 0 => simpa using h
        | q + 1 => simpa using hall q
      · intro hall q
        simpa using hall (q + 1)

/-! ### Shape of one handleNewBlock step -/

theorem handleNewBlock_boundary (fetch : Option (List Str)) (w : Bool)
    (hdr : BlockHeader) (s : SystemState) (hb : hdr.number % 200 = 0) :
    handleNewBlock fetch w hdr s =
      { ws := s.ws
      , validatorCache :=
        { validators := fetchedValidators fetch s
        , validatorFromExtraDatas := decodeExtraData hdr.extraData (fetchedValidators fetch s)
        , lastUpdateBlock := hdr.number }
      , epochStats := { startBlock := hdr.number, club48Blocks := 0, totalBlocks := 0 }
      , data := boundaryData fetch hdr s
      , file := if w then some (boundaryData fetch hdr s) else s.file } := by
  unfold handleNewBlock
  rw [if_pos hb]
  cases fetch <;> cases w <;> rfl

theorem handleNewBlock_nonboundary (fetch : Option (List Str)) (w : Bool)
    (hdr : BlockHeader) (s : SystemState) (hb : ¬ hdr.number % 200 = 0) :
    handleNewBlock fetch w hdr s =
      match s.validatorCache.validatorFromExtraDatas.findIdx?
          (fun v => decide (toLowerStr v.address = toLowerStr hdr.miner)) with
      | some idx =>
        let s2 : SystemState :=
          { s with
            epochStats := statsAfterCount s hdr.number (toLowerStr hdr.miner)
            data := appendBlockRecord (ensureBlocksKey s.data (currentKey s hdr.number))
              (currentKey s hdr.number) (matchedRecord hdr idx) }
        if hdr.number % 10 = 0 then saveData w s2 else s2
      | none =>
        { s with
          epochStats := statsAfterCount s hdr.number (toLowerStr hdr.miner)
          data := ensureBlocksKey s.data (currentKey s hdr.number) } := by
  unfold handleNewBlock
  rw [if_neg hb]
  cases s.validatorCache.validatorFromExtraDatas.findIdx?
      (fun v => decide (toLowerStr v.address = toLowerStr hdr.miner)) <;> rfl

theorem epochStats_saveData (w : Bool) (s : SystemState) :
    (saveData w s).epochStats = s.epochStats := by
  unfold saveData
  split <;> rfl

theorem data_saveData (w : Bool) (s : SystemState) :
    (saveData w s).data = s.data := by
  unfold saveData
  split <;> rfl

theorem validatorCache_saveData (w : Bool) (s : SystemState) :
    (saveData w s).validatorCache = s.validatorCache := by
  unfold saveData
  split <;> rfl

theorem processEvents_cons (e : Event) (t : List Event) (s : SystemState) :
    processEvents (e :: t) s
      = processEvents t (handleNewBlock e.fetch e.writeOk e.hdr s) := rfl

theorem epochStats_handleNewBlock_nonboundary (fetch : Option (List Str)) (w : Bool)
    (hdr : BlockHeader) (s : SystemState) (hb : ¬ hdr.number % 200 = 0) :
    (handleNewBlock fetch w hdr s).epochStats
      = statsAfterCount s hdr.number (toLowerStr hdr.miner) := by
  rw [handleNewBlock_nonboundary fetch w hdr s hb]
  cases s.validatorCache.validatorFromExtraDatas.findIdx?
      (fun v => decide (toLowerStr v.address = toLowerStr hdr.miner)) with
  | some idx =>
    by_cases h10 : hdr.number % 10 = 0 <;> simp [h10, epochStats_saveData]
  | none => rfl

theorem startBlock_handleNewBlock (fetch : Option (List Str)) (w : Bool)
    (hdr : BlockHeader) (s : SystemState) :
    (handleNewBlock fetch w hdr s).epochStats.startBlock =
      if hdr.number % 200 = 0 then hdr.number else initStartBlock s hdr.number := by
  by_cases hb : hdr.number % 200 = 0
  · rw [handleNewBlock_boundary fetch w hdr s hb, if_pos hb]
  · rw [epochStats_handleNewBlock_nonboundary fetch w hdr s hb, if_neg hb]
    rfl

theorem epochs_handleNewBlock_boundary (fetch : Option (List Str)) (w : Bool)
    (hdr : BlockHeader) (s : SystemState) (hb : hdr.number % 200 = 0) :
    (handleNewBlock fetch w hdr s).data.epochs
      = s.data.epochs ++ [epochRecordAt fetch hdr s] := by
  rw [handleNewBlock_boundary fetch w hdr s hb]
  show (boundaryData fetch hdr s).epochs = _
  simp [boundaryData, epochs_ensure]

/-! ### The startBlock evolution under a consecutive feed -/

theorem startBlock_processEvents_consec :
    ∀ (evs : List Event) (n : Nat) (s : SystemState),
      s.epochStats.startBlock = n - n % 200 → consecFrom (n + 1) evs →
      (processEvents evs s).epochStats.startBlock
        = (n + evs.length) - (n + evs.length) % 200
  | [], n, s, hs, _ => by simpa using hs
  | e :: t, n, s, hs, hc => by
    have he : e.hdr.number = n + 1 := hc.1
    have hstep : (handleNewBlock e.fetch e.writeOk e.hdr s).epochStats.startBlock
        = (n + 1) - (n + 1) % 200 := by
      rw [startBlock_handleNewBlock]
      by_cases hb : e.hdr.number % 200 = 0
      · rw [if_pos hb, he]
        have hb2 : (n + 1) % 200 = 0 := he ▸ hb
        omega
      · rw [if_neg hb]
        unfold initStartBlock
        rw [he] at hb
        by_cases h0 : s.epochStats.startBlock = 0
        · rw [if_pos h0, he]
        · rw [if_neg h0, hs]
          omega
    have hrest := startBlock_processEvents_consec t (n + 1) _ hstep hc.2
    rw [processEvents_cons, List.length_cons]
    have harith : n + (t.length + 1) = (n + 1) + t.length := by omega
    rw [harith]
    exact hrest

theorem data_saveData_ite (c : Prop) [Decidable c] (w : Bool) (x : SystemState) :
    (if c then saveData w x else x).data = x.data := by
  split
  · exact data_saveData w x
  · rfl

/-! ### Claim theorems -/

/-- C3: for every block event with blockNumber n such that n mod 200 == 0,
exactly one EpochRecord is emitted (appended to the epochs list), its range
is [n-200, n], it carries the live window counters with the boundary block
itself already counted (totalBlocks is the prior count plus one, cohort
count bumped exactly when the boundary miner is a cohort member), and the
live EpochWindow immediately afterwards is
startBlock = n, totalBlocks = 0, cohortBlocks = 0. -/
theorem c3_boundary_epoch_record (fetch : Option (List Str)) (w : Bool)
    (hdr : BlockHeader) (s : SystemState) (hb : hdr.number % 200 = 0) :
    (handleNewBlock fetch w hdr s).data.epochs
        = s.data.epochs ++ [epochRecordAt fetch hdr s] ∧
    (epochRecordAt fetch hdr s).epochStart = (hdr.number : Int) - 200 ∧
    (epochRecordAt fetch hdr s).epochEnd = (hdr.number : Int) ∧
    (epochRecordAt fetch hdr s).totalBlocks = s.epochStats.totalBlocks + 1 ∧
    (epochRecordAt fetch hdr s).club48Blocks
        = (if isClub48Member (toLowerStr hdr.miner) then s.epochStats.club48Blocks + 1
           else s.epochStats.club48Blocks) ∧
    (handleNewBlock fetch w hdr s).epochStats
        = { startBlock := hdr.number, club48Blocks := 0, totalBlocks := 0 } := by
  refine ⟨epochs_handleNewBlock_boundary fetch w hdr s hb, rfl, rfl, rfl, rfl, ?_⟩
  rw [handleNewBlock_boundary fetch w hdr s hb]

/-- Witness for C3 at the concrete boundary block 200 from the initial state. -/
theorem c3_boundary_epoch_record_witness :
    let hdr : BlockHeader := { number := 200, miner := [], extraData := [] }
    hdr.number % 200 = 0 ∧
    ((handleNewBlock none true hdr initialState).data.epochs
        = initialState.data.epochs ++ [epochRecordAt none hdr initialState] ∧
    (epochRecordAt none hdr initialState).epochStart = ((200 : Nat) : Int) - 200 ∧
    (epochRecordAt none hdr initialState).epochEnd = ((200 : Nat) : Int) ∧
    (epochRecordAt none hdr initialState).totalBlocks
        = initialState.epochStats.totalBlocks + 1 ∧
    (epochRecordAt none hdr initialState).club48Blocks
        = (if isClub48Member (toLowerStr []) then initialState.epochStats.club48Blocks + 1
           else initialState.epochStats.club48Blocks) ∧
    (handleNewBlock none true hdr initialState).epochStats
        = { startBlock := 200, club48Blocks := 0, totalBlocks := 0 }) :=
  ⟨by decide, c3_boundary_epoch_record none true _ initialState (by decide)⟩

/-- C5: after any finite event sequence from the initial state, the live
window satisfies totalBlocks ≥ cohortBlocks ≥ 0 and startBlock is a
multiple of the epoch length 200. -/
theorem c5_window_invariant (evs : List Event) :
    (processEvents evs initialState).epochStats.club48Blocks
        ≤ (processEvents evs initialState).epochStats.totalBlocks ∧
    0 ≤ (processEvents evs initialState).epochStats.club48Blocks ∧
    (processEvents evs initialState).epochStats.startBlock % 200 = 0 := by
  suffices h : ∀ (l : List Event) (s : SystemState),
      s.epochStats.club48Blocks ≤ s.epochStats.totalBlocks →
      s.epochStats.startBlock % 200 = 0 →
      (processEvents l s).epochStats.club48Blocks
          ≤ (processEvents l s).epochStats.totalBlocks ∧
      (processEvents l s).epochStats.startBlock % 200 = 0 by
    have hres := h evs initialState (by decide) (by decide)
    exact ⟨hres.1, Nat.zero_le _, hres.2⟩
  intro l
  induction l with
  | nil => exact fun s h1 h2 => ⟨h1, h2⟩
  | cons e t ih =>
    intro s h1 h2
    rw [processEvents_cons]
    apply ih
    · by_cases hb : e.hdr.number % 200 = 0
      · rw [handleNewBlock_boundary e.fetch e.writeOk e.hdr s hb]
      · rw [epochStats_handleNewBlock_nonboundary e.fetch e.writeOk e.hdr s hb]
        unfold statsAfterCount
        by_cases hm : isClub48Member (toLowerStr e.hdr.miner) <;> simp [hm] <;> omega
    · by_cases hb : e.hdr.number % 200 = 0
      · rw [startBlock_handleNewBlock, if_pos hb]
        exact hb
      · rw [startBlock_handleNewBlock, if_neg hb]
        unfold initStartBlock
        by_cases h0 : s.epochStats.startBlock = 0
        · rw [if_pos h0]
          omega
        · rw [if_neg h0]
          exact h2

/-- C6: when the directory lookup fails at a boundary (fetch = none,
modelling the caught getValidators error), the previously held validator
set is unchanged, the EpochRecord is still appended, its decoded ordering
is computed against that previous validator set, and the step completes
with the usual window reset. -/
theorem c6_refresh_failure_uses_stale_set (w : Bool) (hdr : BlockHeader)
    (s : SystemState) (hb : hdr.number % 200 = 0) :
    (handleNewBlock none w hdr s).validatorCache.validators
        = s.validatorCache.validators ∧
    (handleNewBlock none w hdr s).data.epochs
        = s.data.epochs ++ [epochRecordAt none hdr s] ∧
    (epochRecordAt none hdr s).validatorOrder
        = decodeExtraData hdr.extraData s.validatorCache.validators ∧
    (handleNewBlock none w hdr s).epochStats
        = { startBlock := hdr.number, club48Blocks := 0, totalBlocks := 0 } := by
  refine ⟨?_, epochs_handleNewBlock_boundary none w hdr s hb, rfl, ?_⟩
  · rw [handleNewBlock_boundary none w hdr s hb]
    rfl
  · rw [handleNewBlock_boundary none w hdr s hb]

/-- Witness for C6 at the concrete boundary block 400 with a failed write
as well, from a state holding one validator. -/
theorem c6_refresh_failure_uses_stale_set_witness :
    let s : SystemState :=
      { initialState with validatorCache :=
        { validators := ["0xab".data], validatorFromExtraDatas := [], lastUpdateBlock := 0 } }
    let hdr : BlockHeader := { number := 400, miner := [], extraData := "0xab".data }
    hdr.number % 200 = 0 ∧
    ((handleNewBlock none false hdr s).validatorCache.validators
        = s.validatorCache.validators ∧
    (handleNewBlock none false hdr s).data.epochs
        = s.data.epochs ++ [epochRecordAt none hdr s] ∧
    (epochRecordAt none hdr s).validatorOrder
        = decodeExtraData "0xab".data s.validatorCache.validators ∧
    (handleNewBlock none false hdr s).epochStats
        = { startBlock := 400, club48Blocks := 0, totalBlocks := 0 }) :=
  ⟨by decide, c6_refresh_failure_uses_stale_set false _ _ (by decide)⟩

/-- C7: re-establishing the transport (the reconnect performed after a
disconnect) assigns only the connection handle; the live window counters,
the cached validator set and decoded ordering, the accumulated data and
the persisted file are all left unchanged. -/
theorem c7_reconnect_frame (s : SystemState) (newConn : Nat) :
    (connectWebSocket s newConn).epochStats = s.epochStats ∧
    (connectWebSocket s newConn).validatorCache = s.validatorCache ∧
    (connectWebSocket s newConn).data = s.data ∧
    (connectWebSocket s newConn).file = s.file :=
  ⟨rfl, rfl, rfl, rfl⟩

/-- C8: a failed snapshot-store write (writeOk = false) leaves every
in-memory component of the post-event state exactly as a successful write
would have, and leaves the persisted file untouched; only persistence is
affected. -/
theorem c8_persistence_failure_frame (fetch : Option (List Str))
    (hdr : BlockHeader) (s : SystemState) :
    (handleNewBlock fetch false hdr s).validatorCache
        = (handleNewBlock fetch true hdr s).validatorCache ∧
    (handleNewBlock fetch false hdr s).epochStats
        = (handleNewBlock fetch true hdr s).epochStats ∧
    (handleNewBlock fetch false hdr s).data
        = (handleNewBlock fetch true hdr s).data ∧
    (handleNewBlock fetch false hdr s).file = s.file := by
  by_cases hb : hdr.number % 200 = 0
  · rw [handleNewBlock_boundary fetch false hdr s hb,
      handleNewBlock_boundary fetch true hdr s hb]
    exact ⟨rfl, rfl, rfl, rfl⟩
  · rw [handleNewBlock_nonboundary fetch false hdr s hb,
      handleNewBlock_nonboundary fetch true hdr s hb]
    cases s.validatorCache.validatorFromExtraDatas.findIdx?
        (fun v => decide (toLowerStr v.address = toLowerStr hdr.miner)) with
    | some idx =>
      by_cases h10 : hdr.number % 10 = 0 <;> simp [h10, saveData]
    | none => exact ⟨rfl, rfl, rfl, rfl⟩

/-- C9: the validation-rate divisor is never zero: totalBlocks is
incremented before the boundary check, so the counter from which the
percentage is computed at a boundary (the one carried into the emitted
EpochRecord) is at least 1. -/
theorem c9_rate_divisor_positive (fetch : Option (List Str)) (w : Bool)
    (hdr : BlockHeader) (s : SystemState) (hb : hdr.number % 200 = 0) :
    (handleNewBlock fetch w hdr s).data.epochs
        = s.data.epochs ++ [epochRecordAt fetch hdr s] ∧
    1 ≤ (epochRecordAt fetch hdr s).totalBlocks := by
  refine ⟨epochs_handleNewBlock_boundary fetch w hdr s hb, ?_⟩
  show 1 ≤ s.epochStats.totalBlocks + 1
  omega

/-- Witness for C9 at the concrete boundary block 0 (the smallest one)
from the initial state. -/
theorem c9_rate_divisor_positive_witness :
    let hdr : BlockHeader := { number := 0, miner := [], extraData := [] }
    hdr.number % 200 = 0 ∧
    ((handleNewBlock none true hdr initialState).data.epochs
        = initialState.data.epochs ++ [epochRecordAt none hdr initialState] ∧
    1 ≤ (epochRecordAt none hdr initialState).totalBlocks) :=
  ⟨by decide, c9_rate_divisor_positive none true _ initialState (by decide)⟩

/-- C10: every processed event leaves the persisted block-records map with
an entry under the current epoch range key, even when no BlockRecord was
emitted for the event. -/
theorem c10_epoch_key_always_present (fetch : Option (List Str)) (w : Bool)
    (hdr : BlockHeader) (s : SystemState) :
    (lookupKey (currentKey s hdr.number)
        (handleNewBlock fetch w hdr s).data.blocks).isSome = true := by
  by_cases hb : hdr.number % 200 = 0
  · rw [handleNewBlock_boundary fetch w hdr s hb]
    show (lookupKey _ (boundaryData fetch hdr s).blocks).isSome = true
    unfold boundaryData
    simp [lookupKey_ensure_self]
  · rw [handleNewBlock_nonboundary fetch w hdr s hb]
    cases s.validatorCache.validatorFromExtraDatas.findIdx?
        (fun v => decide (toLowerStr v.address = toLowerStr hdr.miner)) with
    | some idx =>
      simp only [data_saveData_ite]
      rw [lookupKey_appendRec_self, lookupKey_ensure_self]
      rfl
    | none =>
      simp [lookupKey_ensure_self]

/-- C1: for a non-boundary block event whose lowercased miner is found at
position p of the active decoded ordering, exactly one BlockRecord is
emitted — the current epoch key gains exactly the record with position p
and the cohort-membership flag, the overall record count grows by one, and
no EpochRecord is emitted; when the miner is absent, no record is emitted
at all. -/
theorem c1_nonboundary_block_record (fetch : Option (List Str)) (w : Bool)
    (hdr : BlockHeader) (s : SystemState) (idx? : Option Nat)
    (hb : ¬ hdr.number % 200 = 0)
    (hnd : (s.data.blocks.map Prod.fst).Nodup)
    (hidx : s.validatorCache.validatorFromExtraDatas.findIdx?
        (fun v => decide (toLowerStr v.address = toLowerStr hdr.miner)) = idx?) :
    (handleNewBlock fetch w hdr s).data.epochs = s.data.epochs ∧
    lookupKey (currentKey s hdr.number) (handleNewBlock fetch w hdr s).data.blocks
      = some ((lookupKey (currentKey s hdr.number) s.data.blocks).getD []
          ++ (idx?.map (matchedRecord hdr)).toList) ∧
    (allBlockRecords (handleNewBlock fetch w hdr s).data).length
      = (allBlockRecords s.data).length
          + (idx?.map (matchedRecord hdr)).toList.length := by
  subst hidx
  rw [handleNewBlock_nonboundary fetch w hdr s hb]
  cases hfi : s.validatorCache.validatorFromExtraDatas.findIdx?
      (fun v => decide (toLowerStr v.address = toLowerStr hdr.miner)) with
  | some p =>
    simp only [data_saveData_ite]
    refine ⟨?_, ?_, ?_⟩
    · rw [epochs_appendRec, epochs_ensure]
    · rw [lookupKey_appendRec_self, lookupKey_ensure_self]
      rfl
    · rw [length_allBlockRecords_appendRec _ _ _
        (nodupKeys_ensure s.data _ hnd)
        (by rw [lookupKey_ensure_self]; rfl)]
      rw [allBlockRecords_ensure]
      rfl
  | none =>
    refine ⟨epochs_ensure s.data _, ?_, ?_⟩
    · rw [lookupKey_ensure_self]
      simp
    · rw [allBlockRecords_ensure]
      rfl

/-- Witness for C1: block 201 whose miner (a cohort member) sits at decoded
position 10 of the active ordering; the emitted record has position 10 and
isClub48 = true. -/
theorem c1_nonboundary_block_record_witness :
    let cohort0 : Str := "0xccb42a9b8d6c46468900527bc741938e78ab4577".data
    let cache : List FoundValidator :=
      List.replicate 10 { address := "0xzz".data, position := 0 }
        ++ [{ address := cohort0, position := 7 }]
    let s : SystemState :=
      { initialState with validatorCache :=
        { validators := [], validatorFromExtraDatas := cache, lastUpdateBlock := 0 } }
    let hdr : BlockHeader := { number := 201, miner := cohort0, extraData := [] }
    (¬ hdr.number % 200 = 0) ∧
    ((s.data.blocks.map Prod.fst).Nodup) ∧
    (s.validatorCache.validatorFromExtraDatas.findIdx?
        (fun v => decide (toLowerStr v.address = toLowerStr hdr.miner)) = some 10) ∧
    ((handleNewBlock none true hdr s).data.epochs = s.data.epochs ∧
    lookupKey (currentKey s hdr.number) (handleNewBlock none true hdr s).data.blocks
      = some ((lookupKey (currentKey s hdr.number) s.data.blocks).getD []
          ++ [matchedRecord hdr 10]) ∧
    (allBlockRecords (handleNewBlock none true hdr s).data).length
      = (allBlockRecords s.data).length + 1) ∧
    (matchedRecord { number := 201, miner := "0xccb42a9b8d6c46468900527bc741938e78ab4577".data, extraData := [] } 10).isClub48 = true :=
  ⟨by decide, by decide, by decide,
    c1_nonboundary_block_record none true _ _ (some 10) (by decide) (by decide) (by decide),
    by decide⟩

/-- C2: decode returns exactly the pairs (normalized identity, offset) for
validators of the set whose prefix-stripped lowercased bytes occur as a
contiguous substring of the lowercased blob, with the offset being the
first index of the occurrence; validators with no occurrence are omitted,
and the result is sorted ascending by offset. -/
theorem c2_decode_characterization (blob : Str) (vs : List Str) :
    (∀ a p, ({ address := a, position := p } : FoundValidator) ∈ decodeExtraData blob vs ↔
      ∃ v, v ∈ vs ∧ toLowerStr v = a ∧
        (a.drop 2 <+: (toLowerStr blob).drop p ∧
          ∀ q, q < p → ¬ a.drop 2 <+: (toLowerStr blob).drop q)) ∧
    (decodeExtraData blob vs).Pairwise (fun x y => x.position ≤ y.position) := by
  constructor
  · intro a p
    unfold decodeExtraData
    rw [List.mem_mergeSort]
    simp only [List.mem_filterMap, List.mem_map]
    constructor
    · rintro ⟨x, ⟨v, hv, rfl⟩, hg⟩
      cases hfind : firstIdxOf ((toLowerStr v).drop 2) (toLowerStr blob) with
      | none =>
        rw [hfind] at hg
        cases hg
      | some q =>
        rw [hfind] at hg
        injection hg with hg
        have ha : toLowerStr v = a := congrArg FoundValidator.address hg
        have hp : q = p := congrArg FoundValidator.position hg
        subst ha
        subst hp
        exact ⟨v, hv, rfl, (firstIdxOf_eq_some_iff _ _ _).mp hfind⟩
    · rintro ⟨v, hv, ha, hocc⟩
      refine ⟨toLowerStr v, ⟨v, hv, rfl⟩, ?_⟩
      rw [ha]
      rw [(firstIdxOf_eq_some_iff (a.drop 2) (toLowerStr blob) p).mpr hocc]
  · unfold decodeExtraData
    refine List.Pairwise.imp (fun h => of_decide_eq_true h) ?_
    exact List.sorted_mergeSort
      (fun a b c hab hbc => by
        simp only [decide_eq_true_eq] at hab hbc ⊢
        omega)
      (fun a b => by
        simp only [Bool.or_eq_true, decide_eq_true_eq]
        omega)
      _

/-- C4, counterexample to the claim as stated: processing block 250 and
then block 450 (a gap, which the aggregator does not detect) leaves
startBlock at 200, not at 450 − (450 mod 200) = 400. -/
theorem c4_counterexample :
    ¬ ((processEvents
        [ { fetch := none, writeOk := true
          , hdr := { number := 250, miner := [], extraData := [] } }
        , { fetch := none, writeOk := true
          , hdr := { number := 450, miner := [], extraData := [] } } ]
        initialState).epochStats.startBlock = 450 - 450 % 200) := by
  decide

/-- C4 (amended): when the processed block numbers are consecutive (each
event number is the previous one plus one, as the ordered feed delivers
them), the live window startBlock after processing the latest block n
equals n − (n mod 200) once the first event has been processed; moreover
reprocessing any block number n from a state whose startBlock already
equals n − (n mod 200) leaves startBlock at that same value. -/
theorem c4_startBlock_consecutive (e : Event) (evs : List Event) (n0 : Nat)
    (hc : consecFrom n0 (e :: evs))
    (fetch : Option (List Str)) (w : Bool) (s : SystemState) (hdr : BlockHeader)
    (hs : s.epochStats.startBlock = hdr.number - hdr.number % 200) :
    (processEvents (e :: evs) initialState).epochStats.startBlock
        = (n0 + evs.length) - (n0 + evs.length) % 200 ∧
    (handleNewBlock fetch w hdr s).epochStats.startBlock
        = hdr.number - hdr.number % 200 := by
  constructor
  · have he : e.hdr.number = n0 := hc.1
    have h1 : (handleNewBlock e.fetch e.writeOk e.hdr initialState).epochStats.startBlock
        = n0 - n0 % 200 := by
      rw [startBlock_handleNewBlock]
      by_cases hb : e.hdr.number % 200 = 0
      · rw [if_pos hb, he]
        have hb2 : n0 % 200 = 0 := he ▸ hb
        omega
      · rw [if_neg hb]
        unfold initStartBlock
        rw [if_pos (show initialState.epochStats.startBlock = 0 from rfl), he]
    have hrest := startBlock_processEvents_consec evs n0 _ h1 hc.2
    rw [processEvents_cons]
    exact hrest
  · rw [startBlock_handleNewBlock]
    by_cases hb : hdr.number % 200 = 0
    · rw [if_pos hb]
      omega
    · rw [if_neg hb]
      unfold initStartBlock
      by_cases h0 : s.epochStats.startBlock = 0
      · rw [if_pos h0]
      · rw [if_neg h0]
        exact hs

/-- Witness for the amended C4: consecutive blocks 199 then 200 reach
startBlock 200, and reprocessing block 5 from the initial state (whose
startBlock 0 already equals 5 − 5 mod 200) keeps startBlock at 0. -/
theorem c4_startBlock_consecutive_witness :
    let e1 : Event :=
      { fetch := none, writeOk := true, hdr := { number := 199, miner := [], extraData := [] } }
    let e2 : Event :=
      { fetch := none, writeOk := true, hdr := { number := 200, miner := [], extraData := [] } }
    let hdr5 : BlockHeader := { number := 5, miner := [], extraData := [] }
    consecFrom 199 [e1, e2] ∧
    initialState.epochStats.startBlock = hdr5.number - hdr5.number % 200 ∧
    ((processEvents [e1, e2] initialState).epochStats.startBlock
        = (199 + 1) - (199 + 1) % 200 ∧
    (handleNewBlock none true hdr5 initialState).epochStats.startBlock
        = hdr5.number - hdr5.number % 200) :=
  ⟨⟨rfl, rfl, trivial⟩, by decide,
    c4_startBlock_consecutive
      { fetch := none, writeOk := true, hdr := { number := 199, miner := [], extraData := [] } }
      [{ fetch := none, writeOk := true, hdr := { number := 200, miner := [], extraData := [] } }]
      199 ⟨rfl, rfl, trivial⟩ none true initialState
      { number := 5, miner := [], extraData := [] } (by decide)⟩

end BlockValidator
